import Mathlib

/-
Verification of the Watchdog file-watching library (Watchdog.h).

The embedding models the pure data and control content of the header:
paths are lists of name components, strings are lists of characters, the
filesystem collaborator is a record of the three primitives the code uses
(exists, directory enumeration, last_write_time), and a thrown filesystem
or not-found exception is an Except error.  One iteration of the polling
loop body of Watchdog::Watcher::watch is the function tick; the
synchronous part of Watchdog::Watcher::start is the function start;
Watchdog::watchImpl is watchImpl.  Callbacks are identified by a numeric
id, and an invocation is recorded as the pair (callback id, argument
path), so theorems can speak about which callback fired with which path.
-/

set_option maxRecDepth 4000

namespace Watchdog

/-- Character strings, modelled as lists of characters. -/
abbrev Str := List Char

/-- Filesystem paths, modelled as lists of name components. -/
abbrev Path := List Str

/-- Models path::string() of a path built from components: the components
joined by a slash separator. -/
def pathStr : Path → Str
  | [] => []
  | [c] => c
  | c :: rest => c ++ '/' :: pathStr rest

/-- Models std::string::find( pat ): the first index at which pat occurs as a
substring, none standing for npos.  As in C++, searching for the empty
pattern yields index 0. -/
def findSub (pat : Str) : Str → Option Nat
  | [] => if pat.isPrefixOf ([] : Str) then some 0 else none
  | c :: t => if pat.isPrefixOf (c :: t) then some 0 else (findSub pat t).map (· + 1)

/-- Models std::string::find_last_of( set ): the highest index whose character
belongs to the character set, none standing for npos.  Note this searches for
one character out of the set, not for the set as a substring. -/
def findLastOf (cs : Str) : Str → Option Nat
  | [] => none
  | c :: t =>
    match findLastOf cs t with
    | some i => some (i + 1)
    | none => if c ∈ cs then some 0 else none

/-- The inline wildcard test used in Watcher::start, Watcher::watch and
Watchdog::watchImpl on a candidate full path string:
( current.find( before ) != npos || before.empty() ) &&
( current.find_last_of( after ) != npos || after.empty() ). -/
def entryMatches (before after current : Str) : Bool :=
  ((findSub before current).isSome || before.isEmpty)
  && ((findLastOf after current).isSome || after.isEmpty)

/-- Models filter.substr( 0, wildcardPos ) and filter.substr( wildcardPos + 1 )
as computed in watchImpl, where wildcardPos = filter.find( "*" ).  When the
filter holds no wildcard, wildcardPos is npos: substr( 0, npos ) is the whole
filter, and npos + 1 wraps around to 0, so substr( npos + 1 ) is again the
whole filter. -/
def wildcardSplit (filter : Str) : Str × Str :=
  match findSub ['*'] filter with
  | some i => (filter.take i, filter.drop (i + 1))
  | none => (filter, filter)

/-- The filesystem collaborator, exposing the three primitives the code uses.
A none result of entries models a directory_iterator constructor that throws
(missing directory, or a path that is a regular file); a none result of mtime
models a last_write_time call that throws. -/
structure FS where
  pathExists : Path → Bool
  entries : Path → Option (List Str)
  mtime : Path → Option Nat

/-- The errors the code can raise: WatchedFileSystemExc (notFound) and a
boost::filesystem exception escaping directory_iterator or last_write_time
(fsError). -/
inductive Err
  | notFound
  | fsError
deriving DecidableEq, Repr

/-- The mModificationTimes member: a map from path strings to the last
observed modification time, kept as an association list. -/
abbrev ModTimes := List (Str × Nat)

/-- Lookup in mModificationTimes (std::map::find). -/
def mtLookup : ModTimes → Str → Option Nat
  | [], _ => none
  | (k, v) :: t, key => if k = key then some v else mtLookup t key

/-- Insert-or-assign in mModificationTimes (std::map::operator[] assignment). -/
def mtSet : ModTimes → Str → Nat → ModTimes
  | [], key, v => [(key, v)]
  | (k, w) :: t, key, v => if k = key then (k, v) :: t else (k, w) :: mtSet t key v

/-- The pure core of Watcher::hasChanged once the current modification time t
of the path with string form key has been read: a never-seen key is recorded
and reports a change; a known key reports a change and is updated exactly when
the incoming time is strictly greater than the stored one. -/
def hasChangedT (t : Nat) (key : Str) (st : ModTimes) : Bool × ModTimes :=
  match mtLookup st key with
  | none => (true, mtSet st key t)
  | some prev => if prev < t then (true, mtSet st key t) else (false, st)

/-- Watcher::hasChanged: reads last_write_time (which may throw, modelled by a
none mtime) and then runs the pure core.  The C++ function reads the time
before touching the map, so in the throwing case the map is untouched. -/
def hasChanged (fs : FS) (p : Path) (st : ModTimes) : Except Err (Bool × ModTimes) :=
  match fs.mtime p with
  | none => .error .fsError
  | some t => .ok (hasChangedT t (pathStr p) st)

/-- A recorded callback invocation: the callback id and the path argument. -/
abbrev Call := Nat × Path

/-- The state of one Watchdog::Watcher.  mCallback is the id of the stored
callback; watchImpl only ever constructs a Watcher when the caller passed a
non-absent callback, so the id is always meaningful. -/
structure Watcher where
  mPath : Path
  mFilter : Str
  mCallback : Nat
  mModificationTimes : ModTimes
deriving DecidableEq, Repr

/-- The seeding loop of Watcher::start: walk the directory entries and pass
every entry whose full path string matches the filter through hasChanged,
discarding the boolean.  A throwing last_write_time aborts the loop with the
exception. -/
def seedScan (fs : FS) (dir : Path) (before after : Str) :
    ModTimes → List Str → Except Err ModTimes
  | st, [] => .ok st
  | st, e :: rest =>
    if entryMatches before after (pathStr (dir ++ [e])) then
      match fs.mtime (dir ++ [e]) with
      | none => .error .fsError
      | some t => seedScan fs dir before after (hasChangedT t (pathStr (dir ++ [e])) st).2 rest
    else seedScan fs dir before after st rest

/-- The synchronous part of Watcher::start (everything before the polling
thread is spawned).  With a non-empty filter the directory is scanned and
seeded only when the filter actually holds a wildcard, and then the callback
is invoked once with mPath / mFilter; with an empty filter nothing happens
before polling. -/
def start (fs : FS) (w : Watcher) : Except Err (Watcher × List Call) :=
  if w.mFilter.isEmpty then .ok (w, [])
  else
    match findSub ['*'] w.mFilter with
    | some i =>
      match fs.entries w.mPath with
      | none => .error .fsError
      | some es =>
        match seedScan fs w.mPath (w.mFilter.take i) (w.mFilter.drop (i + 1))
            w.mModificationTimes es with
        | .error e => .error e
        | .ok st => .ok ({ w with mModificationTimes := st },
            [(w.mCallback, w.mPath ++ [w.mFilter])])
    | none => .ok (w, [(w.mCallback, w.mPath ++ [w.mFilter])])

/-- The scanning loop of one tick of Watcher::watch for a filtered watch: walk
the entries, and on the first entry whose full path string matches the filter
and whose hasChanged is true, invoke the callback with mPath / mFilter and
break. -/
def tickScan (fs : FS) (dir : Path) (fstr : Str) (cb : Nat) (before after : Str) :
    ModTimes → List Str → Except Err (ModTimes × List Call)
  | st, [] => .ok (st, [])
  | st, e :: rest =>
    if entryMatches before after (pathStr (dir ++ [e])) then
      match fs.mtime (dir ++ [e]) with
      | none => .error .fsError
      | some t =>
        if (hasChangedT t (pathStr (dir ++ [e])) st).1 then
          .ok ((hasChangedT t (pathStr (dir ++ [e])) st).2, [(cb, dir ++ [fstr])])
        else tickScan fs dir fstr cb before after (hasChangedT t (pathStr (dir ++ [e])) st).2 rest
    else tickScan fs dir fstr cb before after st rest

/-- One iteration of the while body of Watcher::watch.  The whole tick is
gated on hasChanged( mPath ): only when the watched path or directory itself
reports a change does anything further happen.  With an empty filter the
callback is invoked with mPath; otherwise the entry scan runs, and only when
the filter holds a wildcard.  The result records the updated watcher state and
the callback invocations of this tick; an error is an exception escaping the
loop body (the C++ code has no handler for it). -/
def tick (fs : FS) (w : Watcher) : Except Err (Watcher × List Call) :=
  match fs.mtime w.mPath with
  | none => .error .fsError
  | some t =>
    if (hasChangedT t (pathStr w.mPath) w.mModificationTimes).1 then
      if w.mFilter.isEmpty then
        .ok ({ w with mModificationTimes := (hasChangedT t (pathStr w.mPath) w.mModificationTimes).2 },
          [(w.mCallback, w.mPath)])
      else
        match findSub ['*'] w.mFilter with
        | none =>
          .ok ({ w with mModificationTimes := (hasChangedT t (pathStr w.mPath) w.mModificationTimes).2 },
            [])
        | some i =>
          match fs.entries w.mPath with
          | none => .error .fsError
          | some es =>
            match tickScan fs w.mPath w.mFilter w.mCallback (w.mFilter.take i)
                (w.mFilter.drop (i + 1))
                (hasChangedT t (pathStr w.mPath) w.mModificationTimes).2 es with
            | .error e => .error e
            | .ok sc => .ok ({ w with mModificationTimes := sc.1 }, sc.2)
    else
      .ok ({ w with mModificationTimes := (hasChangedT t (pathStr w.mPath) w.mModificationTimes).2 },
        [])

/-- The registry member mFileWatchers: a map from the string form of the
originally requested path to its Watcher, kept as an association list with
unique keys. -/
abbrev Registry := List (Str × Watcher)

/-- Lookup in mFileWatchers (std::map::find). -/
def regLookup : Registry → Str → Option Watcher
  | [], _ => none
  | (k, w) :: t, key => if k = key then some w else regLookup t key

/-- Erase in mFileWatchers (std::map::erase of the unique entry of a key). -/
def regErase : Registry → Str → Registry
  | [], _ => []
  | (k, w) :: t, key => if k = key then t else (k, w) :: regErase t key

/-- The wildcard parse at the top of Watchdog::watchImpl: the path string is
searched for a "*" anywhere; when found, the filter is path.filename() and the
watched directory is path.parent_path(), otherwise the whole path is watched
with an empty filter. -/
def parsePath (path : Path) : Path × Str :=
  if (findSub ['*'] (pathStr path)).isSome then (path.dropLast, (path.getLast?).getD [])
  else (path, [])

/-- Watchdog::watchImpl.  With a callback present: parse the wildcard,
validate (note the else branch runs whenever the first condition fails, hence
also for an existing path with an empty filter), then insert and start a new
Watcher unless the key is already registered.  With no callback: unwatch the
key, or everything when the path is empty.  The result pairs the new registry
with the synchronous callback invocations performed by start.  An error is a
thrown exception; every throw in the C++ code happens before the emplace
except a throw out of start, which the settled claims never depend on, so the
error case carries no registry. -/
def watchImpl (fs : FS) (reg : Registry) (path : Path) (callback : Option Nat) :
    Except Err (Registry × List Call) :=
  match callback with
  | some cb =>
    if ((parsePath path).2).isEmpty && !(fs.pathExists (parsePath path).1) then
      .error .notFound
    else
      match fs.entries (parsePath path).1 with
      | none => .error .fsError
      | some es =>
        if es.any (fun e =>
            entryMatches (wildcardSplit (parsePath path).2).1 (wildcardSplit (parsePath path).2).2
              (pathStr ((parsePath path).1 ++ [e]))) then
          match regLookup reg (pathStr path) with
          | some _ => .ok (reg, [])
          | none =>
            match start fs ⟨(parsePath path).1, (parsePath path).2, cb, []⟩ with
            | .error e => .error e
            | .ok wc => .ok (reg ++ [(pathStr path, wc.1)], wc.2)
        else .error .notFound
  | none =>
    if path.isEmpty then .ok ([], [])
    else .ok (regErase reg (pathStr path), [])

/-- A whole sequence of hasChanged calls on one tracker, each observation
given as the pair (path string, observed time). -/
def runObs (st : ModTimes) (obs : List (Str × Nat)) : ModTimes :=
  obs.foldl (fun s kv => (hasChangedT kv.2 kv.1 s).2) st

/-- Concrete filesystem: the path d is an existing empty directory, the path f
an existing regular file (it exists but enumerating it throws); every stat
fails. -/
def fsC1 : FS where
  pathExists := fun q => decide (q = [['d']]) || decide (q = [['f']])
  entries := fun q => if q = [['d']] then some [] else none
  mtime := fun _ => none

/-- Concrete filtered watcher on directory d with filter "*" whose tracker
already knows the directory (time 5) and the entry d/a (time 1). -/
def wC2 : Watcher := ⟨[['d']], ['*'], 0, [(['d'], 5), (['d', '/', 'a'], 1)]⟩

/-- Concrete filesystem where the directory d holds the single entry a, the
directory timestamp is still 5 and the entry timestamp advanced to 9. -/
def fsC2 : FS where
  pathExists := fun _ => true
  entries := fun q => if q = [['d']] then some [['a']] else none
  mtime := fun q => if q = [['d']] then some 5 else if q = [['d'], ['a']] then some 9 else none

/-- Concrete filtered watcher on the directory x with filter x*: the tracker
knows the directory (time 1) and the entries x/c (time 3) and x/b (time 1).
Note neither filename c nor b contains the prefix x, but both full path
strings do, because the directory name does. -/
def wC2b : Watcher := ⟨[['x']], ['x', '*'], 4, [(['x'], 1), (['x', '/', 'c'], 3), (['x', '/', 'b'], 1)]⟩

/-- Concrete filesystem where the directory x holds the entries c and b, the
directory timestamp advanced to 2, the entry c is unchanged at 3 and the
entry b advanced to 5. -/
def fsC2b : FS where
  pathExists := fun _ => true
  entries := fun q => if q = [['x']] then some [['c'], ['b']] else none
  mtime := fun q =>
    if q = [['x']] then some 2
    else if q = [['x'], ['c']] then some 3
    else if q = [['x'], ['b']] then some 5
    else none

/-- Concrete watcher whose filter f is non-empty but holds no wildcard
(reachable through a wildcard in a directory component of the watched path). -/
def wC5 : Watcher := ⟨[['d']], ['f'], 0, []⟩

/-- Concrete filesystem where directory d holds the matching entry f with a
readable timestamp. -/
def fsC5 : FS where
  pathExists := fun _ => true
  entries := fun q => if q = [['d']] then some [['f']] else none
  mtime := fun q => if q = [['d'], ['f']] then some 3 else none

/-- Concrete wildcard watcher on directory d used as a start witness. -/
def wC5b : Watcher := ⟨[['d']], ['*'], 7, []⟩

/-- Concrete filesystem for the start witness: directory d holds entry a. -/
def fsC5b : FS where
  pathExists := fun _ => true
  entries := fun q => if q = [['d']] then some [['a']] else none
  mtime := fun q =>
    if q = [['d'], ['a']] then some 1 else if q = [['g']] then some 4 else none

/-- Concrete unfiltered watcher on the path g with an empty baseline. -/
def wC5c : Watcher := ⟨[['g']], [], 3, []⟩

/-- Concrete unfiltered watcher on the path d. -/
def wC6 : Watcher := ⟨[['d']], [], 0, []⟩

/-- Concrete filesystem where every primitive fails. -/
def fsC6 : FS where
  pathExists := fun _ => false
  entries := fun _ => none
  mtime := fun _ => none

/-- Concrete wildcard watcher on the path e. -/
def wC6b : Watcher := ⟨[['e']], ['*'], 1, []⟩

/-- Concrete unfiltered watcher on the path z. -/
def wC6c : Watcher := ⟨[['z']], [], 2, []⟩

/-- Concrete filesystem where the path e has a readable timestamp but every
directory enumeration fails (the directory vanished). -/
def fsC6b : FS where
  pathExists := fun _ => true
  entries := fun _ => none
  mtime := fun q => if q = [['e']] then some 1 else none

/-- The watcher stored in the registry for the key d/x*. -/
def w0C7 : Watcher := ⟨[['d']], ['x', '*'], 0, []⟩

/-- A registry already holding the key d/x*. -/
def regC7 : Registry := [(['d', '/', 'x', '*'], w0C7)]

/-- Concrete filesystem where the directory d has become empty, so the filter
x* no longer matches anything. -/
def fsC7 : FS where
  pathExists := fun _ => false
  entries := fun q => if q = [['d']] then some [] else none
  mtime := fun _ => none

/-- Concrete filesystem where the directory d holds the entry xy matching the
filter x*. -/
def fsC7b : FS where
  pathExists := fun _ => true
  entries := fun q => if q = [['d']] then some [['x', 'y']] else none
  mtime := fun _ => none

/-- Lookup of the key just written by mtSet. -/
theorem mtLookup_mtSet_self : ∀ (st : ModTimes) (k : Str) (v : Nat),
    mtLookup (mtSet st k v) k = some v
  | [], k, v => by simp [mtSet, mtLookup]
  | (k2, w) :: t, k, v => by
    by_cases h : k2 = k
    · simp [mtSet, mtLookup, h]
    · simp [mtSet, mtLookup, h, mtLookup_mtSet_self t k v]

/-- mtSet leaves every other key alone. -/
theorem mtLookup_mtSet_ne : ∀ (st : ModTimes) (k : Str) (v : Nat) (k2 : Str), k2 ≠ k →
    mtLookup (mtSet st k v) k2 = mtLookup st k2
  | [], k, v, k2, h => by
    have hk : ¬ k = k2 := fun hh => h hh.symm
    simp [mtSet, mtLookup, hk]
  | (k3, w) :: t, k, v, k2, h => by
    by_cases h3 : k3 = k
    · subst h3
      have hk : ¬ k3 = k2 := fun hh => h hh.symm
      simp [mtSet, mtLookup, hk]
    · simp only [mtSet, if_neg h3]
      by_cases h32 : k3 = k2
      · simp [mtLookup, h32]
      · simp [mtLookup, h32, mtLookup_mtSet_ne t k v k2 h]

/-- A hasChanged step never touches the entry of a different key. -/
theorem hasChangedT_frame (t : Nat) (key : Str) (st : ModTimes) (k : Str) (h : k ≠ key) :
    mtLookup (hasChangedT t key st).2 k = mtLookup st k := by
  cases hl : mtLookup st key with
  | none => simp [hasChangedT, hl, mtLookup_mtSet_ne st key t k h]
  | some prev =>
    by_cases hp : prev < t
    · simp [hasChangedT, hl, hp, mtLookup_mtSet_ne st key t k h]
    · simp [hasChangedT, hl, hp]

/-- After a hasChanged step its own key is always recorded. -/
theorem hasChangedT_self (t : Nat) (key : Str) (st : ModTimes) :
    (mtLookup (hasChangedT t key st).2 key).isSome = true := by
  cases hl : mtLookup st key with
  | none => simp [hasChangedT, hl, mtLookup_mtSet_self]
  | some prev =>
    by_cases hp : prev < t
    · simp [hasChangedT, hl, hp, mtLookup_mtSet_self]
    · simp [hasChangedT, hl, hp, mtLookup, hl]

/-- A hasChanged step never removes a recorded key. -/
theorem hasChangedT_isSome (t : Nat) (key : Str) (st : ModTimes) (k : Str)
    (h : (mtLookup st k).isSome = true) :
    (mtLookup (hasChangedT t key st).2 k).isSome = true := by
  by_cases hk : k = key
  · subst hk; exact hasChangedT_self t k st
  · rw [hasChangedT_frame t key st k hk]; exact h

/-- A hasChanged step that reports no change leaves the map untouched. -/
theorem hasChangedT_false_state (t : Nat) (key : Str) (st : ModTimes)
    (h : (hasChangedT t key st).1 = false) : (hasChangedT t key st).2 = st := by
  cases hl : mtLookup st key with
  | none => simp [hasChangedT, hl] at h
  | some prev =>
    by_cases hp : prev < t
    · simp [hasChangedT, hl, hp] at h
    · simp [hasChangedT, hl, hp]

/-- A hasChanged step never decreases a stored timestamp. -/
theorem hasChangedT_mono (t : Nat) (k2 key : Str) (st : ModTimes) (v : Nat)
    (h : mtLookup st key = some v) :
    (mtLookup (hasChangedT t k2 st).2 key).isSome = true ∧
      v ≤ (mtLookup (hasChangedT t k2 st).2 key).getD 0 := by
  by_cases hk : key = k2
  · subst hk
    by_cases hp : v < t
    · simp [hasChangedT, h, hp, mtLookup_mtSet_self]
      exact le_of_lt hp
    · simp [hasChangedT, h, hp]
  · rw [hasChangedT_frame t k2 st key hk]
    simp [h]

/-- Over any sequence of hasChanged calls a stored timestamp stays recorded
and never decreases. -/
theorem runObs_mono : ∀ (obs : List (Str × Nat)) (st : ModTimes) (key : Str) (v : Nat),
    mtLookup st key = some v →
    (mtLookup (runObs st obs) key).isSome = true ∧ v ≤ (mtLookup (runObs st obs) key).getD 0
  | [], st, key, v, h => by simp [runObs, List.foldl, h]
  | kv :: rest, st, key, v, h => by
    obtain ⟨hs, hle⟩ := hasChangedT_mono kv.2 kv.1 key st v h
    cases hl : mtLookup (hasChangedT kv.2 kv.1 st).2 key with
    | none => rw [hl] at hs; simp at hs
    | some v1 =>
      obtain ⟨hs2, hle2⟩ := runObs_mono rest (hasChangedT kv.2 kv.1 st).2 key v1 hl
      rw [hl] at hle
      simp only [Option.getD_some] at hle
      have hrw : runObs st (kv :: rest) = runObs (hasChangedT kv.2 kv.1 st).2 rest := rfl
      rw [hrw]
      exact ⟨hs2, le_trans hle hle2⟩

/-- List.isEmpty in terms of equality with the empty list. -/
theorem isEmpty_eq (l : Str) : l.isEmpty = true ↔ l = [] := by
  cases l with
  | nil => simp
  | cons a t => simp

/-- List.isPrefixOf as an existential statement. -/
theorem isPrefixOf_iff : ∀ (p s : Str), p.isPrefixOf s = true ↔ ∃ r, s = p ++ r
  | [], s => by
    simp [List.isPrefixOf]
  | a :: as, [] => by simp [List.isPrefixOf]
  | a :: as, b :: bs => by
    simp only [List.isPrefixOf, Bool.and_eq_true, beq_iff_eq, List.cons_append]
    constructor
    · rintro ⟨rfl, h⟩
      obtain ⟨r, rfl⟩ := (isPrefixOf_iff as bs).1 h
      exact ⟨r, rfl⟩
    · rintro ⟨r, hr⟩
      injection hr with h1 h2
      subst h1
      exact ⟨rfl, (isPrefixOf_iff as bs).2 ⟨r, h2⟩⟩

/-- findSub finds something exactly when the pattern occurs as a substring. -/
theorem findSub_isSome : ∀ (pat s : Str),
    (findSub pat s).isSome = true ↔ ∃ l r, s = l ++ pat ++ r
  | pat, [] => by
    cases pat with
    | nil =>
      constructor
      · intro _
        exact ⟨[], [], rfl⟩
      · intro _
        rfl
    | cons a t =>
      constructor
      · intro h
        exact Bool.noConfusion h
      · rintro ⟨l, r, hc⟩
        exfalso
        rcases List.append_eq_nil.1 hc.symm with ⟨h1, h2⟩
        rcases List.append_eq_nil.1 h1 with ⟨h3, h4⟩
        exact List.cons_ne_nil a t h4
  | pat, b :: bs => by
    cases hp : pat.isPrefixOf (b :: bs) with
    | true =>
      obtain ⟨r, hr⟩ := (isPrefixOf_iff pat (b :: bs)).1 hp
      simp only [findSub, hp, if_true]
      constructor
      · intro _
        exact ⟨[], r, by simpa using hr⟩
      · intro _
        rfl
    | false =>
      simp only [findSub, hp, Bool.false_eq_true, if_false]
      have hmap : (Option.map (· + 1) (findSub pat bs)).isSome = (findSub pat bs).isSome := by
        cases findSub pat bs <;> rfl
      rw [hmap, findSub_isSome pat bs]
      constructor
      · rintro ⟨l, r, rfl⟩
        exact ⟨b :: l, r, rfl⟩
      · rintro ⟨l, r, hl⟩
        cases l with
        | nil =>
          exfalso
          have hpre : pat.isPrefixOf (b :: bs) = true :=
            (isPrefixOf_iff pat (b :: bs)).2 ⟨r, by simpa using hl⟩
          rw [hpre] at hp
          exact Bool.noConfusion hp
        | cons x l2 =>
          injection hl with h1 h2
          exact ⟨l2, r, h2⟩

/-- findLastOf finds something exactly when some character of the set occurs
in the candidate. -/
theorem findLastOf_isSome : ∀ (cs s : Str),
    (findLastOf cs s).isSome = true ↔ ∃ c, c ∈ cs ∧ c ∈ s
  | cs, [] => by simp [findLastOf]
  | cs, b :: t => by
    cases hf : findLastOf cs t with
    | some i =>
      simp only [findLastOf, hf]
      constructor
      · intro _
        obtain ⟨c, hc1, hc2⟩ := (findLastOf_isSome cs t).1 (by rw [hf]; rfl)
        exact ⟨c, hc1, List.mem_cons_of_mem b hc2⟩
      · intro _
        rfl
    | none =>
      by_cases hb : b ∈ cs
      · simp only [findLastOf, hf, if_pos hb]
        constructor
        · intro _
          exact ⟨b, hb, List.mem_cons_self b t⟩
        · intro _
          rfl
      · simp only [findLastOf, hf, if_neg hb]
        constructor
        · intro h
          exact Bool.noConfusion h
        · rintro ⟨c, hc1, hc2⟩
          rcases List.mem_cons.1 hc2 with rfl | hc3
          · exact absurd hc1 hb
          · have h2 : (findLastOf cs t).isSome = true :=
              (findLastOf_isSome cs t).2 ⟨c, hc1, hc3⟩
            rw [hf] at h2
            exact Bool.noConfusion h2

/-- findSub for a one-character pattern is character membership. -/
theorem findSub_char (c : Char) (s : Str) : (findSub [c] s).isSome = true ↔ c ∈ s := by
  rw [findSub_isSome]
  constructor
  · rintro ⟨l, r, rfl⟩
    exact List.mem_append.2 (Or.inl (List.mem_append.2 (Or.inr (List.mem_singleton.2 rfl))))
  · intro h
    obtain ⟨l, r, rfl⟩ := List.append_of_mem h
    exact ⟨l, r, by simp⟩

/-- The pathStr equation for a first component followed by a non-empty rest. -/
theorem pathStr_cons (c : Str) (l : Path) (h : l ≠ []) :
    pathStr (c :: l) = c ++ '/' :: pathStr l := by
  cases l with
  | nil => exact absurd rfl h
  | cons d t => rfl

/-- A character of the last component occurs in the joined path string. -/
theorem mem_pathStr_last : ∀ (pre : Path) (seg : Str) (c : Char), c ∈ seg →
    c ∈ pathStr (pre ++ [seg])
  | [], seg, c, h => by simpa [pathStr] using h
  | a :: rest, seg, c, h => by
    have h2 := mem_pathStr_last rest seg c h
    have hne : rest ++ [seg] ≠ [] := by simp
    rw [List.cons_append, pathStr_cons a (rest ++ [seg]) hne]
    exact List.mem_append.2 (Or.inr (List.mem_cons_of_mem '/' h2))

/-- The seeding scan never removes a recorded key. -/
theorem seedScan_preserve (fs : FS) (dir : Path) (before after : Str) :
    ∀ (es : List Str) (st st2 : ModTimes) (k : Str),
      seedScan fs dir before after st es = .ok st2 →
      (mtLookup st k).isSome = true → (mtLookup st2 k).isSome = true := by
  intro es
  induction es with
  | nil =>
    intro st st2 k h hs
    simp only [seedScan, Except.ok.injEq] at h
    rw [← h]; exact hs
  | cons e rest ih =>
    intro st st2 k h hs
    cases hmatch : entryMatches before after (pathStr (dir ++ [e])) with
    | false =>
      simp only [seedScan, hmatch, Bool.false_eq_true, if_false] at h
      exact ih st st2 k h hs
    | true =>
      cases hmt : fs.mtime (dir ++ [e]) with
      | none => simp [seedScan, hmatch, hmt] at h
      | some t =>
        simp only [seedScan, hmatch, if_true, hmt] at h
        exact ih _ st2 k h (hasChangedT_isSome t (pathStr (dir ++ [e])) st k hs)

/-- After a successful seeding scan, every matching entry of the list has a
recorded baseline. -/
theorem seedScan_records (fs : FS) (dir : Path) (before after : Str) :
    ∀ (es : List Str) (st st2 : ModTimes) (e : Str),
      seedScan fs dir before after st es = .ok st2 → e ∈ es →
      entryMatches before after (pathStr (dir ++ [e])) = true →
      (mtLookup st2 (pathStr (dir ++ [e]))).isSome = true := by
  intro es
  induction es with
  | nil => intro st st2 e h he; cases he
  | cons a rest ih =>
    intro st st2 e h he hm
    rcases List.mem_cons.1 he with rfl | he2
    · cases hmt : fs.mtime (dir ++ [e]) with
      | none => simp [seedScan, hm, hmt] at h
      | some t =>
        simp only [seedScan, hm, if_true, hmt] at h
        exact seedScan_preserve fs dir before after rest _ st2 _ h
          (hasChangedT_self t (pathStr (dir ++ [e])) st)
    · cases hmatch : entryMatches before after (pathStr (dir ++ [a])) with
      | false =>
        simp only [seedScan, hmatch, Bool.false_eq_true, if_false] at h
        exact ih st st2 e h he2 hm
      | true =>
        cases hmt : fs.mtime (dir ++ [a]) with
        | none => simp [seedScan, hmatch, hmt] at h
        | some t =>
          simp only [seedScan, hmatch, if_true, hmt] at h
          exact ih _ st2 e h he2 hm

/-- The tick scan produces no invocation or exactly the single invocation
carrying the literal filter path. -/
theorem tickScan_calls (fs : FS) (dir : Path) (fstr : Str) (cb : Nat) (before after : Str) :
    ∀ (es : List Str) (st : ModTimes) (sc : ModTimes × List Call),
      tickScan fs dir fstr cb before after st es = .ok sc →
      sc.2 = [] ∨ sc.2 = [(cb, dir ++ [fstr])] := by
  intro es
  induction es with
  | nil =>
    intro st sc h
    simp only [tickScan, Except.ok.injEq] at h
    rw [← h]
    exact Or.inl rfl
  | cons e rest ih =>
    intro st sc h
    cases hmatch : entryMatches before after (pathStr (dir ++ [e])) with
    | false =>
      simp only [tickScan, hmatch, Bool.false_eq_true, if_false] at h
      exact ih _ sc h
    | true =>
      cases hmt : fs.mtime (dir ++ [e]) with
      | none => simp [tickScan, hmatch, hmt] at h
      | some t =>
        cases hc : (hasChangedT t (pathStr (dir ++ [e])) st).1 with
        | true =>
          simp only [tickScan, hmatch, if_true, hmt, hc, Except.ok.injEq] at h
          rw [← h]
          exact Or.inr rfl
        | false =>
          simp only [tickScan, hmatch, if_true, hmt, hc, Bool.false_eq_true, if_false] at h
          exact ih _ sc h

/-- The tick scan passes over a leading block of entries that either do not
match or match but report no change; such entries never alter the threaded
map, so the scan continues on the tail with the same state. -/
theorem tickScan_skip (fs : FS) (dir : Path) (fstr : Str) (cb : Nat) (before after : Str) :
    ∀ (es1 tail : List Str) (st : ModTimes),
      (∀ e1 ∈ es1,
        entryMatches before after (pathStr (dir ++ [e1])) = false ∨
        ((fs.mtime (dir ++ [e1])).isSome = true ∧
          (hasChangedT ((fs.mtime (dir ++ [e1])).getD 0) (pathStr (dir ++ [e1])) st).1 = false)) →
      tickScan fs dir fstr cb before after st (es1 ++ tail) =
        tickScan fs dir fstr cb before after st tail := by
  intro es1
  induction es1 with
  | nil => intro tail st h; rfl
  | cons e1 rest ih =>
    intro tail st h
    have htail : ∀ e2 ∈ rest,
        entryMatches before after (pathStr (dir ++ [e2])) = false ∨
        ((fs.mtime (dir ++ [e2])).isSome = true ∧
          (hasChangedT ((fs.mtime (dir ++ [e2])).getD 0) (pathStr (dir ++ [e2])) st).1 = false) :=
      fun e2 he2 => h e2 (List.mem_cons_of_mem e1 he2)
    rcases h e1 (List.mem_cons_self e1 rest) with hm | ⟨hsome, hfalse⟩
    · simp only [List.cons_append, tickScan, hm, Bool.false_eq_true, if_false]
      exact ih tail st htail
    · cases hmt : fs.mtime (dir ++ [e1]) with
      | none => rw [hmt] at hsome; exact absurd hsome (by simp)
      | some t1 =>
        rw [hmt] at hfalse
        simp only [Option.getD_some] at hfalse
        have hst := hasChangedT_false_state t1 (pathStr (dir ++ [e1])) st hfalse
        cases hm2 : entryMatches before after (pathStr (dir ++ [e1])) with
        | false =>
          simp only [List.cons_append, tickScan, hm2, Bool.false_eq_true, if_false]
          exact ih tail st htail
        | true =>
          simp only [List.cons_append, tickScan, hm2, if_true, hmt, hfalse,
            Bool.false_eq_true, if_false, hst]
          exact ih tail st htail

/-- C1: evaluation of the code at the failing inputs.  The validation else
branch of watchImpl is not guarded by a non-empty filter, so with an empty
filter an existing path still goes through the directory scan: watching the
existing empty directory d raises NotFound and watching the existing regular
file f lets the directory enumeration throw, although the claim (and the
spec) say a wildcard-free watch on an existing path succeeds. -/
theorem C1_code_eval :
    fsC1.pathExists [['d']] = true ∧
    findSub ['*'] (pathStr [['d']]) = none ∧
    watchImpl fsC1 [] [['d']] (some 0) = .error .notFound ∧
    fsC1.pathExists [['f']] = true ∧
    findSub ['*'] (pathStr [['f']]) = none ∧
    watchImpl fsC1 [] [['f']] (some 0) = .error .fsError :=
  ⟨rfl, rfl, rfl, rfl, rfl, rfl⟩

/-- C2 counterexample, two parts.  First: for the running filtered watch wC2
(directory d, filter containing the wildcard) the poll tick invokes no
callback although the entry d/a matches the filter and its modification time
strictly advanced from the stored 1 to the observed 9: the scan is gated on
hasChanged of the directory itself, whose timestamp is unchanged, refuting
the claim that every tick enumerates the entries and fires on the first
changed match.  Second: for the watch wC2b (directory x, filter x*) the tick
fires a callback although no entry FILENAME (c or b) matches the filter: the
code matches the wildcard against the full path string, whose directory part
supplies the prefix x, refuting the claim that hasChanged is called only for
entries whose filename matches. -/
theorem C2_counterexample :
    (wC2.mFilter ≠ [] ∧
      findSub ['*'] wC2.mFilter = some 0 ∧
      fsC2.entries wC2.mPath = some [['a']] ∧
      entryMatches (wC2.mFilter.take 0) (wC2.mFilter.drop 1)
        (pathStr (wC2.mPath ++ [['a']])) = true ∧
      mtLookup wC2.mModificationTimes (pathStr (wC2.mPath ++ [['a']])) = some 1 ∧
      fsC2.mtime (wC2.mPath ++ [['a']]) = some 9 ∧
      tick fsC2 wC2 = .ok (wC2, [])) ∧
    (wC2b.mFilter ≠ [] ∧
      findSub ['*'] wC2b.mFilter = some 1 ∧
      fsC2b.entries wC2b.mPath = some [['c'], ['b']] ∧
      entryMatches (wC2b.mFilter.take 1) (wC2b.mFilter.drop 2) ['c'] = false ∧
      entryMatches (wC2b.mFilter.take 1) (wC2b.mFilter.drop 2) ['b'] = false ∧
      entryMatches (wC2b.mFilter.take 1) (wC2b.mFilter.drop 2)
        (pathStr (wC2b.mPath ++ [['b']])) = true ∧
      tick fsC2b wC2b = .ok ({ wC2b with
          mModificationTimes := [(['x'], 2), (['x', '/', 'c'], 3), (['x', '/', 'b'], 5)] },
        [(wC2b.mCallback, wC2b.mPath ++ [wC2b.mFilter])])) :=
  ⟨⟨by decide, rfl, rfl, rfl, rfl, rfl, rfl⟩,
   ⟨by decide, rfl, rfl, rfl, rfl, rfl, rfl⟩⟩

/-- C2 (amended): a poll tick of a filtered watch invokes the callback at
most once and only ever with the literal path mPath / mFilter; the whole scan
is gated on hasChanged of the watched directory itself, so on a tick where
the directory timestamp did not strictly increase, nothing is enumerated and
no callback fires; and when the gate reports a change, the scan walks the
entries in order, matching the wildcard against each full path string, and on
the first matching entry whose hasChanged is true it invokes the callback
exactly once with mPath / mFilter and stops scanning (the resulting state is
exactly the state after that one step, the remaining entries untouched). -/
theorem C2_tick_behavior :
    (∀ (fs : FS) (w w2 : Watcher) (calls : List Call),
      w.mFilter ≠ [] → tick fs w = .ok (w2, calls) →
      calls = [] ∨ calls = [(w.mCallback, w.mPath ++ [w.mFilter])]) ∧
    (∀ (fs : FS) (w : Watcher) (t : Nat),
      fs.mtime w.mPath = some t →
      (hasChangedT t (pathStr w.mPath) w.mModificationTimes).1 = false →
      tick fs w = .ok ({ w with
        mModificationTimes := (hasChangedT t (pathStr w.mPath) w.mModificationTimes).2 }, [])) ∧
    (∀ (fs : FS) (w : Watcher) (t : Nat) (st0 : ModTimes) (i : Nat) (es1 es2 : List Str)
        (e : Str),
      fs.mtime w.mPath = some t →
      (hasChangedT t (pathStr w.mPath) w.mModificationTimes).1 = true →
      st0 = (hasChangedT t (pathStr w.mPath) w.mModificationTimes).2 →
      w.mFilter.isEmpty = false →
      findSub ['*'] w.mFilter = some i →
      fs.entries w.mPath = some (es1 ++ e :: es2) →
      (∀ e1 ∈ es1,
        entryMatches (w.mFilter.take i) (w.mFilter.drop (i + 1))
          (pathStr (w.mPath ++ [e1])) = false ∨
        ((fs.mtime (w.mPath ++ [e1])).isSome = true ∧
          (hasChangedT ((fs.mtime (w.mPath ++ [e1])).getD 0)
            (pathStr (w.mPath ++ [e1])) st0).1 = false)) →
      entryMatches (w.mFilter.take i) (w.mFilter.drop (i + 1))
        (pathStr (w.mPath ++ [e])) = true →
      (fs.mtime (w.mPath ++ [e])).isSome = true →
      (hasChangedT ((fs.mtime (w.mPath ++ [e])).getD 0)
        (pathStr (w.mPath ++ [e])) st0).1 = true →
      tick fs w = .ok ({ w with mModificationTimes :=
          (hasChangedT ((fs.mtime (w.mPath ++ [e])).getD 0)
            (pathStr (w.mPath ++ [e])) st0).2 },
        [(w.mCallback, w.mPath ++ [w.mFilter])])) := by
  refine ⟨?_, ?_, ?_⟩
  · intro fs w w2 calls hf h
    have hfe : w.mFilter.isEmpty = false := by
      cases hfl : w.mFilter with
      | nil => exact absurd hfl hf
      | cons a l => simp
    cases hm : fs.mtime w.mPath with
    | none => simp [tick, hm] at h
    | some t =>
      cases hg : (hasChangedT t (pathStr w.mPath) w.mModificationTimes).1 with
      | false =>
        simp only [tick, hm, hg, Bool.false_eq_true, if_false, Except.ok.injEq,
          Prod.mk.injEq] at h
        exact Or.inl h.2.symm
      | true =>
        cases hw : findSub ['*'] w.mFilter with
        | none =>
          simp only [tick, hm, hg, if_true, hfe, Bool.false_eq_true, if_false, hw,
            Except.ok.injEq, Prod.mk.injEq] at h
          exact Or.inl h.2.symm
        | some i =>
          cases hes : fs.entries w.mPath with
          | none => simp [tick, hm, hg, hfe, hw, hes] at h
          | some es =>
            cases hsc : tickScan fs w.mPath w.mFilter w.mCallback (w.mFilter.take i)
                (w.mFilter.drop (i + 1))
                (hasChangedT t (pathStr w.mPath) w.mModificationTimes).2 es with
            | error e => simp [tick, hm, hg, hfe, hw, hes, hsc] at h
            | ok sc =>
              simp only [tick, hm, hg, if_true, hfe, Bool.false_eq_true, if_false, hw, hes,
                hsc, Except.ok.injEq, Prod.mk.injEq] at h
              rw [← h.2]
              exact tickScan_calls fs w.mPath w.mFilter w.mCallback (w.mFilter.take i)
                (w.mFilter.drop (i + 1)) es _ sc hsc
  · intro fs w t hm hg
    simp [tick, hm, hg]
  · intro fs w t st0 i es1 es2 e hm hg hst0 hfe hw hes hskip hme hsome hch
    subst hst0
    cases hmt : fs.mtime (w.mPath ++ [e]) with
    | none => rw [hmt] at hsome; exact absurd hsome (by simp)
    | some te =>
      rw [hmt] at hch
      simp only [Option.getD_some] at hch
      have hscan :
          tickScan fs w.mPath w.mFilter w.mCallback (w.mFilter.take i) (w.mFilter.drop (i + 1))
            ((hasChangedT t (pathStr w.mPath) w.mModificationTimes).2) (es1 ++ e :: es2) =
          .ok ((hasChangedT te (pathStr (w.mPath ++ [e]))
              ((hasChangedT t (pathStr w.mPath) w.mModificationTimes).2)).2,
            [(w.mCallback, w.mPath ++ [w.mFilter])]) := by
        rw [tickScan_skip fs w.mPath w.mFilter w.mCallback (w.mFilter.take i)
          (w.mFilter.drop (i + 1)) es1 (e :: es2)
          ((hasChangedT t (pathStr w.mPath) w.mModificationTimes).2) hskip]
        simp only [tickScan, hme, if_true, hmt, hch]
      simp only [tick, hm, hg, if_true, hfe, Bool.false_eq_true, if_false, hw, hes, hscan,
        hmt, Option.getD_some]

/-- C2 witness: the amended tick theorem applied to the concrete watches wC2
(gated, nothing fires) and wC2b (skip the unchanged entry c, fire on the
changed entry b). -/
theorem C2_tick_behavior_witness :
    (([] : List Call) = [] ∨ ([] : List Call) = [(wC2.mCallback, wC2.mPath ++ [wC2.mFilter])]) ∧
    tick fsC2 wC2 = .ok ({ wC2 with
      mModificationTimes := (hasChangedT 5 (pathStr wC2.mPath) wC2.mModificationTimes).2 }, []) ∧
    tick fsC2b wC2b = .ok ({ wC2b with
        mModificationTimes := [(['x'], 2), (['x', '/', 'c'], 3), (['x', '/', 'b'], 5)] },
      [(wC2b.mCallback, wC2b.mPath ++ [wC2b.mFilter])]) :=
  ⟨C2_tick_behavior.1 fsC2 wC2 wC2 [] (by decide) rfl,
   C2_tick_behavior.2.1 fsC2 wC2 5 rfl rfl,
   C2_tick_behavior.2.2 fsC2b wC2b 2 [(['x'], 2), (['x', '/', 'c'], 3), (['x', '/', 'b'], 1)]
     1 [['c']] [] ['b'] rfl rfl rfl rfl rfl rfl (by decide) rfl rfl rfl⟩

/-- C3 counterexample: the candidate abc matches a pattern with empty prefix
and non-empty suffix xa although it does not contain xa as a substring: the
suffix test is find_last_of, a search for one character out of the suffix. -/
theorem C3_counterexample :
    entryMatches [] ['x', 'a'] ['a', 'b', 'c'] = true ∧
    findSub ['x', 'a'] ['a', 'b', 'c'] = none ∧
    (['x', 'a'] : Str) ≠ [] :=
  ⟨rfl, rfl, by decide⟩

/-- C3 (amended): the match succeeds iff the prefix is empty or occurs as a
substring of the candidate, and the suffix is empty or at least one character
of the suffix occurs in the candidate (its last occurrence being the found
position); the three concrete examples of the claim hold. -/
theorem C3_matches :
    (∀ (before after current : Str),
      entryMatches before after current = true ↔
        ((before = [] ∨ ∃ l r, current = l ++ before ++ r) ∧
         (after = [] ∨ ∃ c, c ∈ after ∧ c ∈ current))) ∧
    entryMatches ['s', 'h', 'a', 'd', 'e', 'r', '.'] []
      ['s', 'h', 'a', 'd', 'e', 'r', '.', 'f', 'r', 'a', 'g'] = true ∧
    entryMatches ['s', 'h', 'a', 'd', 'e', 'r', '.'] []
      ['o', 't', 'h', 'e', 'r', '.', 'f', 'r', 'a', 'g'] = false ∧
    entryMatches [] [] ['a', '.', 'x'] = true := by
  refine ⟨?_, rfl, rfl, rfl⟩
  intro before after current
  simp only [entryMatches, Bool.and_eq_true, Bool.or_eq_true, findSub_isSome,
    findLastOf_isSome, isEmpty_eq]
  constructor
  · rintro ⟨h1, h2⟩
    exact ⟨Or.symm h1, Or.symm h2⟩
  · rintro ⟨h1, h2⟩
    exact ⟨Or.symm h1, Or.symm h2⟩

/-- C4: Watcher::hasChanged semantics: a first observation records the time
and reports a change; a later observation reports a change and updates the
entry exactly when the time strictly increased, else it reports no change and
leaves the state alone; over a whole call sequence a stored timestamp stays
recorded and never decreases. -/
theorem C4_hasChanged_semantics :
    (∀ (fs : FS) (p : Path) (st : ModTimes) (t : Nat),
      fs.mtime p = some t → mtLookup st (pathStr p) = none →
      hasChanged fs p st = .ok (true, mtSet st (pathStr p) t)) ∧
    (∀ (fs : FS) (p : Path) (st : ModTimes) (t prev : Nat),
      fs.mtime p = some t → mtLookup st (pathStr p) = some prev → prev < t →
      hasChanged fs p st = .ok (true, mtSet st (pathStr p) t)) ∧
    (∀ (fs : FS) (p : Path) (st : ModTimes) (t prev : Nat),
      fs.mtime p = some t → mtLookup st (pathStr p) = some prev → ¬ prev < t →
      hasChanged fs p st = .ok (false, st)) ∧
    (∀ (st : ModTimes) (obs : List (Str × Nat)) (key : Str) (v : Nat),
      mtLookup st key = some v →
      (mtLookup (runObs st obs) key).isSome = true ∧
        v ≤ (mtLookup (runObs st obs) key).getD 0) := by
  refine ⟨?_, ?_, ?_, ?_⟩
  · intro fs p st t hm hl
    simp [hasChanged, hm, hasChangedT, hl]
  · intro fs p st t prev hm hl hp
    simp [hasChanged, hm, hasChangedT, hl, hp]
  · intro fs p st t prev hm hl hp
    simp [hasChanged, hm, hasChangedT, hl, hp]
  · intro st obs key v h
    exact runObs_mono obs st key v h

/-- C4 witness: the hasChanged semantics applied at concrete observations. -/
theorem C4_hasChanged_semantics_witness :
    hasChanged fsC2 [['d'], ['a']] [] = .ok (true, mtSet [] (pathStr [['d'], ['a']]) 9) ∧
    hasChanged fsC2 [['d'], ['a']] wC2.mModificationTimes =
      .ok (true, mtSet wC2.mModificationTimes (pathStr [['d'], ['a']]) 9) ∧
    hasChanged fsC2 [['d']] wC2.mModificationTimes = .ok (false, wC2.mModificationTimes) ∧
    ((mtLookup (runObs [(['k'], 1)] [(['k'], 5), (['k'], 3)]) ['k']).isSome = true ∧
      1 ≤ (mtLookup (runObs [(['k'], 1)] [(['k'], 5), (['k'], 3)]) ['k']).getD 0) :=
  ⟨C4_hasChanged_semantics.1 fsC2 [['d'], ['a']] [] 9 rfl rfl,
   C4_hasChanged_semantics.2.1 fsC2 [['d'], ['a']] wC2.mModificationTimes 9 1 rfl rfl
     (by decide),
   C4_hasChanged_semantics.2.2.1 fsC2 [['d']] wC2.mModificationTimes 5 5 rfl rfl (by decide),
   C4_hasChanged_semantics.2.2.2 [(['k'], 1)] [(['k'], 5), (['k'], 3)] ['k'] 1 rfl⟩

/-- C5 counterexample: starting the watch wC5, whose filter f is non-empty
but holds no wildcard, performs no seeding scan at all: the baseline stays
empty although the directory has the matching entry f with a readable
timestamp, refuting the claim that every non-empty-filter start seeds each
matching entry through hasChanged. -/
theorem C5_counterexample :
    wC5.mFilter ≠ [] ∧
    fsC5.entries wC5.mPath = some [['f']] ∧
    entryMatches (wildcardSplit wC5.mFilter).1 (wildcardSplit wC5.mFilter).2
      (pathStr (wC5.mPath ++ [['f']])) = true ∧
    fsC5.mtime (wC5.mPath ++ [['f']]) = some 3 ∧
    start fsC5 wC5 = .ok (wC5, [(wC5.mCallback, wC5.mPath ++ [wC5.mFilter])]) ∧
    wC5.mModificationTimes = [] :=
  ⟨by decide, rfl, rfl, rfl, rfl, rfl⟩

/-- C5 (amended): with an empty filter, start does nothing before polling;
with a non-empty filter the callback is invoked exactly once with the literal
path mPath / mFilter, and the synchronous seeding scan runs exactly when the
filter holds the wildcard, in which case every matching entry ends up with a
recorded baseline; for an empty filter the first poll tick is a first
observation of the bare path and fires the callback with that path. -/
theorem C5_start_behavior :
    (∀ (fs : FS) (w : Watcher), w.mFilter = [] → start fs w = .ok (w, [])) ∧
    (∀ (fs : FS) (w w2 : Watcher) (calls : List Call),
      w.mFilter ≠ [] → start fs w = .ok (w2, calls) →
      calls = [(w.mCallback, w.mPath ++ [w.mFilter])]) ∧
    (∀ (fs : FS) (w w2 : Watcher) (i : Nat) (es : List Str) (e : Str) (calls : List Call),
      findSub ['*'] w.mFilter = some i →
      fs.entries w.mPath = some es →
      e ∈ es →
      entryMatches (w.mFilter.take i) (w.mFilter.drop (i + 1)) (pathStr (w.mPath ++ [e])) = true →
      start fs w = .ok (w2, calls) →
      (mtLookup w2.mModificationTimes (pathStr (w.mPath ++ [e]))).isSome = true) ∧
    (∀ (fs : FS) (w : Watcher) (t : Nat),
      w.mFilter = [] → w.mModificationTimes = [] → fs.mtime w.mPath = some t →
      tick fs w = .ok ({ w with mModificationTimes := [(pathStr w.mPath, t)] },
        [(w.mCallback, w.mPath)])) := by
  refine ⟨?_, ?_, ?_, ?_⟩
  · intro fs w hf
    have hfe : w.mFilter.isEmpty = true := (isEmpty_eq _).2 hf
    simp [start, hfe]
  · intro fs w w2 calls hf h
    have hfe : w.mFilter.isEmpty = false := by
      cases hfl : w.mFilter with
      | nil => exact absurd hfl hf
      | cons a l => simp
    cases hw : findSub ['*'] w.mFilter with
    | none =>
      simp only [start, hfe, Bool.false_eq_true, if_false, hw, Except.ok.injEq,
        Prod.mk.injEq] at h
      exact h.2.symm
    | some i =>
      cases hes : fs.entries w.mPath with
      | none => simp [start, hfe, hw, hes] at h
      | some es =>
        cases hscan : seedScan fs w.mPath (w.mFilter.take i) (w.mFilter.drop (i + 1))
            w.mModificationTimes es with
        | error e => simp [start, hfe, hw, hes, hscan] at h
        | ok st =>
          simp only [start, hfe, Bool.false_eq_true, if_false, hw, hes, hscan,
            Except.ok.injEq, Prod.mk.injEq] at h
          exact h.2.symm
  · intro fs w w2 i es e calls hw hes he hm h
    have hfe : w.mFilter.isEmpty = false := by
      cases hfl : w.mFilter with
      | nil =>
        rw [hfl] at hw
        simp [findSub, List.isPrefixOf] at hw
      | cons a l => simp
    cases hscan : seedScan fs w.mPath (w.mFilter.take i) (w.mFilter.drop (i + 1))
        w.mModificationTimes es with
    | error er => simp [start, hfe, hw, hes, hscan] at h
    | ok st =>
      simp only [start, hfe, Bool.false_eq_true, if_false, hw, hes, hscan,
        Except.ok.injEq, Prod.mk.injEq] at h
      have hrec := seedScan_records fs w.mPath (w.mFilter.take i) (w.mFilter.drop (i + 1))
        es w.mModificationTimes st e hscan he hm
      rw [← h.1]
      exact hrec
  · intro fs w t hf hst hm
    have hfe : w.mFilter.isEmpty = true := (isEmpty_eq _).2 hf
    simp [tick, hm, hst, hasChangedT, mtLookup, mtSet, hfe]

/-- C5 witness: the amended start theorem applied to concrete watches. -/
theorem C5_start_behavior_witness :
    start fsC5b ⟨[['q']], [], 9, []⟩ = .ok (⟨[['q']], [], 9, []⟩, []) ∧
    ([(7, [['d'], ['*']])] : List Call) = [(wC5b.mCallback, wC5b.mPath ++ [wC5b.mFilter])] ∧
    (mtLookup [(['d', '/', 'a'], 1)] (pathStr (wC5b.mPath ++ [['a']]))).isSome = true ∧
    tick fsC5b wC5c = .ok ({ wC5c with mModificationTimes := [(pathStr wC5c.mPath, 4)] },
      [(wC5c.mCallback, wC5c.mPath)]) :=
  ⟨C5_start_behavior.1 fsC5b ⟨[['q']], [], 9, []⟩ rfl,
   C5_start_behavior.2.1 fsC5b wC5b
     { wC5b with mModificationTimes := [(['d', '/', 'a'], 1)] } [(7, [['d'], ['*']])]
     (by decide) rfl,
   C5_start_behavior.2.2.1 fsC5b wC5b
     { wC5b with mModificationTimes := [(['d', '/', 'a'], 1)] } 0 [['a']] ['a']
     [(7, [['d'], ['*']])] rfl rfl (by decide) rfl rfl,
   C5_start_behavior.2.2.2 fsC5b wC5c 4 rfl rfl rfl⟩

/-- C6 counterexample: a tick on which the stat of the watched path fails
propagates the exception out of the loop body instead of treating it as no
change: the code has no handler, so the claim that polling errors are
swallowed fails. -/
theorem C6_counterexample :
    fsC6.mtime wC6.mPath = none ∧ tick fsC6 wC6 = .error .fsError :=
  ⟨rfl, rfl⟩

/-- C6 (amended): filesystem errors during polling are not swallowed: a
failed stat of the watched path makes the tick raise, a failed directory
enumeration of a wildcard watch makes the tick raise, and a failed
enumeration during the synchronous start scan makes start raise; nothing in
the loop body catches these exceptions, so they escape the thread function. -/
theorem C6_errors :
    (∀ (fs : FS) (w : Watcher), fs.mtime w.mPath = none → tick fs w = .error .fsError) ∧
    (∀ (fs : FS) (w : Watcher) (t i : Nat),
      fs.mtime w.mPath = some t →
      (hasChangedT t (pathStr w.mPath) w.mModificationTimes).1 = true →
      w.mFilter.isEmpty = false →
      findSub ['*'] w.mFilter = some i →
      fs.entries w.mPath = none →
      tick fs w = .error .fsError) ∧
    (∀ (fs : FS) (w : Watcher) (i : Nat),
      w.mFilter.isEmpty = false →
      findSub ['*'] w.mFilter = some i →
      fs.entries w.mPath = none →
      start fs w = .error .fsError) := by
  refine ⟨?_, ?_, ?_⟩
  · intro fs w hm
    simp [tick, hm]
  · intro fs w t i hm hg hfe hw hes
    simp [tick, hm, hg, hfe, hw, hes]
  · intro fs w i hfe hw hes
    simp [start, hfe, hw, hes]

/-- C6 witness: the amended error-propagation theorem at concrete inputs. -/
theorem C6_errors_witness :
    tick fsC6b wC6c = .error .fsError ∧
    tick fsC6b wC6b = .error .fsError ∧
    start fsC6b wC6b = .error .fsError :=
  ⟨C6_errors.1 fsC6b wC6c rfl,
   C6_errors.2.1 fsC6b wC6b 1 0 rfl rfl rfl rfl rfl,
   C6_errors.2.2 fsC6b wC6b 0 rfl rfl rfl⟩

/-- C7 counterexample: the key d/x* is registered, yet a second watch call
for it with another callback is not a silent no-op: validation runs before
the registry lookup, and since the directory d is now empty the call raises
NotFound. -/
theorem C7_counterexample :
    regLookup regC7 (pathStr [['d'], ['x', '*']]) = some w0C7 ∧
    watchImpl fsC7 regC7 [['d'], ['x', '*']] (some 1) = .error .notFound :=
  ⟨rfl, rfl⟩

/-- C7 (amended): when the key is already registered and the re-registration
call returns normally, it returns the registry unchanged and performs no
callback invocation: the stored callback is not replaced and the watch is not
recreated or restarted (but the call re-runs validation first and may raise
instead of being silent). -/
theorem C7_rereg_noop :
    ∀ (fs : FS) (reg : Registry) (path : Path) (cb : Nat) (w : Watcher)
      (r : Registry × List Call),
      regLookup reg (pathStr path) = some w →
      watchImpl fs reg path (some cb) = .ok r → r = (reg, []) := by
  intro fs reg path cb w r h1 h2
  cases c1 : ((parsePath path).2).isEmpty && !(fs.pathExists (parsePath path).1) with
  | true => simp [watchImpl, c1] at h2
  | false =>
    cases hes : fs.entries (parsePath path).1 with
    | none => simp [watchImpl, c1, hes] at h2
    | some es =>
      cases hany : es.any (fun e =>
          entryMatches (wildcardSplit (parsePath path).2).1 (wildcardSplit (parsePath path).2).2
            (pathStr ((parsePath path).1 ++ [e]))) with
      | false => simp [watchImpl, c1, hes, hany] at h2
      | true =>
        simp only [watchImpl, c1, Bool.false_eq_true, if_false, hes, hany, if_true, h1,
          Except.ok.injEq] at h2
        exact h2.symm

/-- C7 witness: the amended re-registration theorem applied to the registered
key d/x* on a filesystem where validation passes. -/
theorem C7_rereg_noop_witness :
    regLookup regC7 (pathStr [['d'], ['x', '*']]) = some w0C7 ∧
    ((regC7, ([] : List Call)) = (regC7, [])) :=
  ⟨rfl, C7_rereg_noop fsC7b regC7 [['d'], ['x', '*']] 1 w0C7 (regC7, []) rfl rfl⟩

/-- C8: the wildcard parse of watchImpl: when the wildcard occurs in the
final segment, the watched directory is the parent path and the filter is the
final segment; when the path holds no wildcard at all, the whole path is
watched with an empty filter. -/
theorem C8_parse :
    (∀ (pre : Path) (seg : Str), '*' ∈ seg → parsePath (pre ++ [seg]) = (pre, seg)) ∧
    (∀ (path : Path), ¬ '*' ∈ pathStr path → parsePath path = (path, [])) := by
  constructor
  · intro pre seg h
    have hmem : '*' ∈ pathStr (pre ++ [seg]) := mem_pathStr_last pre seg '*' h
    have hs : (findSub ['*'] (pathStr (pre ++ [seg]))).isSome = true :=
      (findSub_char '*' _).2 hmem
    simp [parsePath, hs, List.dropLast_concat, List.getLast?_concat]
  · intro path h
    have hs : (findSub ['*'] (pathStr path)).isSome = false := by
      cases hx : (findSub ['*'] (pathStr path)).isSome with
      | true => exact absurd ((findSub_char '*' _).1 hx) h
      | false => rfl
    simp [parsePath, hs]

/-- C8 witness: the parse theorem applied to a path with a wildcard in the
final segment and to a wildcard-free path. -/
theorem C8_parse_witness :
    parsePath ([['a']] ++ [['b', '*']]) = ([['a']], ['b', '*']) ∧
    parsePath [['a'], ['b']] = ([['a'], ['b']], []) :=
  ⟨C8_parse.1 [['a']] ['b', '*'] (by decide), C8_parse.2 [['a'], ['b']] (by decide)⟩

/-- C10: a hasChanged call touches at most the modificationTimes entry of the
path it was given: every other key keeps its stored value, and no recorded
key is ever removed, so the tracked set only grows. -/
theorem C10_frame :
    (∀ (fs : FS) (p : Path) (st : ModTimes) (b : Bool) (st2 : ModTimes) (k : Str),
      hasChanged fs p st = .ok (b, st2) → k ≠ pathStr p →
      mtLookup st2 k = mtLookup st k) ∧
    (∀ (fs : FS) (p : Path) (st : ModTimes) (b : Bool) (st2 : ModTimes) (k : Str),
      hasChanged fs p st = .ok (b, st2) → (mtLookup st k).isSome = true →
      (mtLookup st2 k).isSome = true) := by
  constructor
  · intro fs p st b st2 k h hk
    cases hm : fs.mtime p with
    | none => simp [hasChanged, hm] at h
    | some t =>
      simp only [hasChanged, hm, Except.ok.injEq] at h
      have hfr := hasChangedT_frame t (pathStr p) st k hk
      rw [h] at hfr
      exact hfr
  · intro fs p st b st2 k h hs
    cases hm : fs.mtime p with
    | none => simp [hasChanged, hm] at h
    | some t =>
      simp only [hasChanged, hm, Except.ok.injEq] at h
      have hpr := hasChangedT_isSome t (pathStr p) st k hs
      rw [h] at hpr
      exact hpr

/-- C10 witness: the frame theorem applied to a concrete updating call. -/
theorem C10_frame_witness :
    mtLookup (mtSet wC2.mModificationTimes (pathStr [['d'], ['a']]) 9) ['d'] =
      mtLookup wC2.mModificationTimes ['d'] ∧
    (mtLookup (mtSet wC2.mModificationTimes (pathStr [['d'], ['a']]) 9) ['d']).isSome = true :=
  ⟨C10_frame.1 fsC2 [['d'], ['a']] wC2.mModificationTimes true
      (mtSet wC2.mModificationTimes (pathStr [['d'], ['a']]) 9) ['d'] rfl (by decide),
   C10_frame.2 fsC2 [['d'], ['a']] wC2.mModificationTimes true
      (mtSet wC2.mModificationTimes (pathStr [['d'], ['a']]) 9) ['d'] rfl rfl⟩

end Watchdog

